import Mathlib

/-
Verification development for the audio classification notebook
src/python/07-audio-classification-n-generation/01-audio-classification.ipynb.

Shallow embedding conventions.
Waveforms are lists of rational amplitude samples (the single channel
dimension of shape (1, L) tensors is collapsed).  Labels are natural
numbers.  Floating point arithmetic of the framework is idealised over
the rationals, and over the reals where logarithms and exponentials
appear (log softmax).  Numerical computations that the notebook fully
delegates to the framework (the convolution arithmetic inside a forward
pass, the cross entropy value of a batch, the batch norm statistics
update, the resampling kernel, the seeded permutation of sklearn) are
abstracted as explicit function parameters, while every piece of logic
written in the notebook itself (padding, collation, the split sizes,
the epoch loops, the checkpoint rule, argmax decoding, the inference
guards, the layer topology and its length arithmetic) is embedded
concretely and proved about.
-/

/-! ## Batch collation (notebook cell: pad_sequence and collate_fn) -/

/-- Length of the longest waveform in a batch: the common length that
torch.nn.utils.rnn.pad_sequence pads every waveform of the batch to. -/
def maxWaveLen (batch : List (List ℚ)) : ℕ :=
  (batch.map List.length).foldr max 0

/-- Embedding of the notebook function pad_sequence: every waveform of the
batch is extended with zero valued samples up to the length of the longest
waveform (the transposes and the permute of the source only move the channel
dimension and are collapsed here together with that dimension). -/
def pad_sequence (batch : List (List ℚ)) : List (List ℚ) :=
  batch.map (fun w => w ++ List.replicate (maxWaveLen batch - w.length) (0 : ℚ))

/-- Embedding of the notebook function collate_fn: the waveforms of the batch
are gathered in order and padded, the labels are gathered in the same order
(np.stack followed by torch.Tensor(...).to(torch.long) keeps the order and
the integer values). -/
def collate_fn (batch : List (List ℚ × ℕ)) : List (List ℚ) × List ℕ :=
  (pad_sequence (batch.map Prod.fst), batch.map Prod.snd)

theorem length_le_maxWaveLen {batch : List (List ℚ)} {w : List ℚ}
    (hw : w ∈ batch) : w.length ≤ maxWaveLen batch := by
  induction batch with
  | nil => cases hw
  | cons b bs ih =>
    rcases List.mem_cons.1 hw with h | h
    · subst h
      simp only [maxWaveLen, List.map_cons, List.foldr_cons]
      exact le_max_left _ _
    · refine le_trans (ih h) ?_
      simp only [maxWaveLen, List.map_cons, List.foldr_cons]
      exact le_max_right _ _

/-! ## M5 forward pass length arithmetic (notebook cell: class M5) -/

/-- Output length of torch.nn.Conv1d with the given kernel size and stride on
an input of length L (dilation 1, no padding); none when the framework raises
because the kernel exceeds the input length. -/
def convLen (kernel stride L : ℕ) : Option ℕ :=
  if kernel ≤ L then some ((L - kernel) / stride + 1) else none

/-- Output length of torch.nn.MaxPool1d with the given kernel size (stride
defaults to the kernel size, no padding, floor mode); none when the framework
raises because the output would be empty. -/
def poolLen (kernel L : ℕ) : Option ℕ :=
  if kernel ≤ L then some ((L - kernel) / kernel + 1) else none

/-- Output length of F.avg_pool1d (x, x.shape[-1]), the global average pool of
M5.forward; none when the framework raises on an empty time dimension. -/
def gapLen (L : ℕ) : Option ℕ :=
  if 1 ≤ L then some 1 else none

/-- Length of the time dimension through M5.forward, stage by stage: conv1
(kernel 80, stride 16), pool1 (4), conv2 (kernel 3), pool2 (4), conv3
(kernel 3), pool3 (4), conv4 (kernel 3), pool4 (4), global average pool.
Batch norm, ReLU, permute and the linear head do not change the time
dimension.  The result is some length exactly when every stage of the
forward pass is defined. -/
def m5Len (L : ℕ) : Option ℕ :=
  (convLen 80 16 L).bind fun a1 =>
  (poolLen 4 a1).bind fun p1 =>
  (convLen 3 1 p1).bind fun a2 =>
  (poolLen 4 a2).bind fun p2 =>
  (convLen 3 1 p2).bind fun a3 =>
  (poolLen 4 a3).bind fun p3 =>
  (convLen 3 1 p3).bind fun a4 =>
  (poolLen 4 a4).bind fun p4 =>
  gapLen p4

theorem convLen_pos (kernel stride L : ℕ) (h : kernel ≤ L) :
    convLen kernel stride L = some ((L - kernel) / stride + 1) := if_pos h

theorem convLen_neg (kernel stride L : ℕ) (h : ¬ kernel ≤ L) :
    convLen kernel stride L = none := if_neg h

theorem poolLen_pos (kernel L : ℕ) (h : kernel ≤ L) :
    poolLen kernel L = some ((L - kernel) / kernel + 1) := if_pos h

theorem poolLen_neg (kernel L : ℕ) (h : ¬ kernel ≤ L) :
    poolLen kernel L = none := if_neg h

theorem m5Len_eq (L : ℕ) : m5Len L = if 6848 ≤ L then some 1 else none := by
  unfold m5Len
  by_cases h1 : 80 ≤ L
  · rw [convLen_pos _ _ _ h1, Option.some_bind]
    by_cases h2 : 4 ≤ (L - 80) / 16 + 1
    · rw [poolLen_pos _ _ h2, Option.some_bind]
      by_cases h3 : 3 ≤ ((L - 80) / 16 + 1 - 4) / 4 + 1
      · rw [convLen_pos _ _ _ h3, Option.some_bind]
        by_cases h4 : 4 ≤ (((L - 80) / 16 + 1 - 4) / 4 + 1 - 3) / 1 + 1
        · rw [poolLen_pos _ _ h4, Option.some_bind]
          by_cases h5 : 3 ≤ ((((L - 80) / 16 + 1 - 4) / 4 + 1 - 3) / 1 + 1 - 4) / 4 + 1
          · rw [convLen_pos _ _ _ h5, Option.some_bind]
            by_cases h6 : 4 ≤ (((((L - 80) / 16 + 1 - 4) / 4 + 1 - 3) / 1 + 1 - 4) / 4 + 1 - 3) / 1 + 1
            · rw [poolLen_pos _ _ h6, Option.some_bind]
              by_cases h7 : 3 ≤ ((((((L - 80) / 16 + 1 - 4) / 4 + 1 - 3) / 1 + 1 - 4) / 4 + 1 - 3) / 1 + 1 - 4) / 4 + 1
              · rw [convLen_pos _ _ _ h7, Option.some_bind]
                by_cases h8 : 4 ≤ (((((((L - 80) / 16 + 1 - 4) / 4 + 1 - 3) / 1 + 1 - 4) / 4 + 1 - 3) / 1 + 1 - 4) / 4 + 1 - 3) / 1 + 1
                · rw [poolLen_pos _ _ h8, Option.some_bind]
                  unfold gapLen
                  rw [if_pos (by omega), if_pos (by omega)]
                · rw [poolLen_neg _ _ h8, Option.none_bind, if_neg (by omega)]
              · rw [convLen_neg _ _ _ h7, Option.none_bind, if_neg (by omega)]
            · rw [poolLen_neg _ _ h6, Option.none_bind, if_neg (by omega)]
          · rw [convLen_neg _ _ _ h5, Option.none_bind, if_neg (by omega)]
        · rw [poolLen_neg _ _ h4, Option.none_bind, if_neg (by omega)]
      · rw [convLen_neg _ _ _ h3, Option.none_bind, if_neg (by omega)]
    · rw [poolLen_neg _ _ h2, Option.none_bind, if_neg (by omega)]
  · rw [convLen_neg _ _ _ h1, Option.none_bind, if_neg (by omega)]

/-- Target sample rate of the notebook (hyperparameter cell,
new_sample_rate = 8000): every waveform is resampled to this rate. -/
def new_sample_rate : ℕ := 8000

/-- C8: the forward pass of M5 is defined, with every convolution, pooling
and global average pool stage receiving an input long enough for the
framework not to raise, exactly on inputs of at least 6848 samples; in
particular a clip of 1.0 second at the 8000 Hz target rate (8000 samples)
is long enough, and 6847 samples are not, so 6848 is minimal. -/
theorem m5_forward_defined_iff :
    (∀ L : ℕ, (m5Len L).isSome ↔ 6848 ≤ L)
    ∧ (m5Len (new_sample_rate * 1)).isSome
    ∧ m5Len 6847 = none := by
  have key : ∀ L : ℕ, (m5Len L).isSome ↔ 6848 ≤ L := by
    intro L
    rw [m5Len_eq]
    by_cases h : 6848 ≤ L
    · simp [h]
    · simp [h]
  refine ⟨key, ?_, ?_⟩
  · rw [key]
    decide
  · rw [m5Len_eq]
    decide

theorem take_append_replicate (w r : List ℚ) : (w ++ r).take w.length = w := by
  simp

theorem drop_append_replicate (w r : List ℚ) : (w ++ r).drop w.length = r := by
  simp

/-- C4: for a nonempty batch, collate_fn returns one padded waveform per
input pair in order, every padded waveform has the common length equal to
the longest waveform length of the batch, each padded waveform keeps its
original samples unchanged as a prefix followed exactly by zero valued
padding samples, and the labels are returned stacked in the same order. -/
theorem collate_fn_pads (batch : List (List ℚ × ℕ)) (h : batch ≠ []) :
    (collate_fn batch).1.length = batch.length
    ∧ (∀ w ∈ (collate_fn batch).1, w.length = maxWaveLen (batch.map Prod.fst))
    ∧ (∀ i, i < batch.length →
        ((collate_fn batch).1.getD i []).take (batch.getD i ([], 0)).1.length
          = (batch.getD i ([], 0)).1
        ∧ ((collate_fn batch).1.getD i []).drop (batch.getD i ([], 0)).1.length
          = List.replicate
              (maxWaveLen (batch.map Prod.fst) - (batch.getD i ([], 0)).1.length)
              (0 : ℚ))
    ∧ (collate_fn batch).2 = batch.map Prod.snd := by
  refine ⟨by simp [collate_fn, pad_sequence], ?_, ?_, rfl⟩
  · intro w hw
    simp only [collate_fn, pad_sequence] at hw
    rw [List.mem_map] at hw
    obtain ⟨a, ha, rfl⟩ := hw
    have hale : a.length ≤ maxWaveLen (batch.map Prod.fst) := length_le_maxWaveLen ha
    simp only [List.length_append, List.length_replicate]
    omega
  · intro i hi
    have hi1 : i < (batch.map Prod.fst).length := by simpa using hi
    have hi2 : i < ((batch.map Prod.fst).map
        (fun w => w ++ List.replicate (maxWaveLen (batch.map Prod.fst) - w.length) (0 : ℚ))).length := by
      simpa using hi
    have hfst : (batch.getD i ([], 0)).1 = (batch.map Prod.fst).getD i [] := by
      rw [List.getD_eq_getElem _ _ hi, List.getD_eq_getElem _ _ hi1, List.getElem_map]
    have hgd : (collate_fn batch).1.getD i []
        = (batch.getD i ([], 0)).1
          ++ List.replicate
              (maxWaveLen (batch.map Prod.fst) - (batch.getD i ([], 0)).1.length) (0 : ℚ) := by
      simp only [collate_fn, pad_sequence]
      rw [List.getD_eq_getElem _ _ hi2, List.getElem_map, hfst,
        List.getD_eq_getElem _ _ hi1]
    rw [hgd]
    exact ⟨take_append_replicate _ _, drop_append_replicate _ _⟩

/-- C4 witness: a concrete two element batch, one waveform of length two and
one of length one; the first conjunct and the label conjunct of the padding
theorem evaluated there. -/
theorem collate_fn_pads_witness :
    (collate_fn [([(1 : ℚ), 2], 5), ([3], 7)]).1.length = 2
    ∧ (collate_fn [([(1 : ℚ), 2], 5), ([3], 7)]).2 = [5, 7] :=
  ⟨(collate_fn_pads [([(1 : ℚ), 2], 5), ([3], 7)] (by decide)).1,
   (collate_fn_pads [([(1 : ℚ), 2], 5), ([3], 7)] (by decide)).2.2.2⟩

/-! ## Training loop checkpointing (notebook training loop cell) -/

/-- Embedding of the epoch loop of the training loop cell, restricted to the
data it branches on: the list of per epoch validation losses (val appends one
loss per epoch, in order).  best_loss starts at 10000; when the loss just
appended is strictly below best_loss, best_loss is lowered to it and the
model state dict is saved to save_path, overwriting any earlier checkpoint.
The function returns the (0 based) epoch index whose parameters the
checkpoint file holds at the end, if any save happened, together with the
list of per epoch save decisions. -/
def loopAux (best : ℚ) (ckpt : Option ℕ) (i : ℕ) : List ℚ → Option ℕ × List Bool
  | [] => (ckpt, [])
  | l :: ls =>
    if l < best then
      ((loopAux l (some i) (i + 1) ls).1, true :: (loopAux l (some i) (i + 1) ls).2)
    else
      ((loopAux best ckpt (i + 1) ls).1, false :: (loopAux best ckpt (i + 1) ls).2)

/-- Epoch index held by the checkpoint file after the whole training loop,
starting from best_loss = 10000 and no checkpoint on disk. -/
def finalCheckpoint (valLosses : List ℚ) : Option ℕ :=
  (loopAux 10000 none 0 valLosses).1

/-- Per epoch save decisions of the training loop, starting from
best_loss = 10000. -/
def saveFlags (valLosses : List ℚ) : List Bool :=
  (loopAux 10000 none 0 valLosses).2

/-- Value of best_loss just before epoch e is compared: the minimum of the
initial 10000 and all earlier validation losses. -/
def bestBefore (valLosses : List ℚ) (e : ℕ) : ℚ :=
  (valLosses.take e).foldl min 10000

theorem foldl_min_le_init (l : List ℚ) : ∀ b : ℚ, l.foldl min b ≤ b := by
  induction l with
  | nil => intro b; simp
  | cons x xs ih =>
    intro b
    simp only [List.foldl_cons]
    exact le_trans (ih (min b x)) (min_le_left _ _)

theorem loopAux_flags_getD (ls : List ℚ) :
    ∀ (best : ℚ) (ckpt : Option ℕ) (i e : ℕ), e < ls.length →
      (loopAux best ckpt i ls).2.getD e false
        = decide (ls.getD e 0 < (ls.take e).foldl min best) := by
  induction ls with
  | nil =>
    intro best ckpt i e he
    exact absurd he (by simp)
  | cons l ls ih =>
    intro best ckpt i e he
    by_cases hl : l < best
    · simp only [loopAux, if_pos hl]
      cases e with
      | zero => simp [hl]
      | succ e =>
        simp only [List.getD_cons_succ, List.take_succ_cons, List.foldl_cons,
          min_eq_right (le_of_lt hl)]
        exact ih l (some i) (i + 1) e (by simpa using he)
    · simp only [loopAux, if_neg hl]
      cases e with
      | zero => simp [hl]
      | succ e =>
        simp only [List.getD_cons_succ, List.take_succ_cons, List.foldl_cons,
          min_eq_left (le_of_not_lt hl)]
        exact ih best ckpt (i + 1) e (by simpa using he)

theorem loopAux_ckpt_spec (ls : List ℚ) :
    ∀ (best : ℚ) (ckpt : Option ℕ) (i : ℕ),
      (∀ k, (loopAux best ckpt i ls).1 = some k →
        (ckpt = some k ∧ ∀ x ∈ ls, best ≤ x)
        ∨ (∃ j, j < ls.length ∧ k = i + j ∧ ls.getD j 0 < best
            ∧ ∀ x ∈ ls, ls.getD j 0 ≤ x))
      ∧ ((loopAux best ckpt i ls).1 = none → ckpt = none ∧ ∀ x ∈ ls, best ≤ x) := by
  induction ls with
  | nil =>
    intro best ckpt i
    constructor
    · intro k hk
      left
      exact ⟨hk, by simp⟩
    · intro hk
      exact ⟨hk, by simp⟩
  | cons l ls ih =>
    intro best ckpt i
    by_cases hl : l < best
    · have H := ih l (some i) (i + 1)
      constructor
      · intro k hk
        simp only [loopAux, if_pos hl] at hk
        rcases H.1 k hk with ⟨hck, hall⟩ | ⟨j, hj, hk2, hlt, hle⟩
        · right
          have hik : i = k := Option.some.inj hck
          subst hik
          refine ⟨0, by simp, by omega, ?_, ?_⟩
          · simpa using hl
          · intro x hx
            rcases List.mem_cons.1 hx with rfl | hx
            · simp
            · simpa using hall x hx
        · right
          refine ⟨j + 1, by simp only [List.length_cons]; omega, by omega, ?_, ?_⟩
          · simp only [List.getD_cons_succ]
            exact lt_trans hlt hl
          · intro x hx
            rcases List.mem_cons.1 hx with rfl | hx
            · simp only [List.getD_cons_succ]
              exact le_of_lt hlt
            · simp only [List.getD_cons_succ]
              exact hle x hx
      · intro hk
        simp only [loopAux, if_pos hl] at hk
        exact absurd (H.2 hk).1 (by simp)
    · have H := ih best ckpt (i + 1)
      constructor
      · intro k hk
        simp only [loopAux, if_neg hl] at hk
        rcases H.1 k hk with ⟨hck, hall⟩ | ⟨j, hj, hk2, hlt, hle⟩
        · left
          refine ⟨hck, ?_⟩
          intro x hx
          rcases List.mem_cons.1 hx with rfl | hx
          · exact le_of_not_lt hl
          · exact hall x hx
        · right
          refine ⟨j + 1, by simp only [List.length_cons]; omega, by omega, ?_, ?_⟩
          · simp only [List.getD_cons_succ]
            exact hlt
          · intro x hx
            rcases List.mem_cons.1 hx with rfl | hx
            · simp only [List.getD_cons_succ]
              exact le_of_lt (lt_of_lt_of_le hlt (le_of_not_lt hl))
            · simp only [List.getD_cons_succ]
              exact hle x hx
      · intro hk
        simp only [loopAux, if_neg hl] at hk
        obtain ⟨h1, h2⟩ := H.2 hk
        refine ⟨h1, ?_⟩
        intro x hx
        rcases List.mem_cons.1 hx with rfl | hx
        · exact le_of_not_lt hl
        · exact h2 x hx

/-- C10: a checkpoint is written after epoch e exactly when the validation
loss of epoch e is strictly below bestBefore, the minimum of the initial
best_loss value 10000 and all earlier validation losses; in particular an
epoch whose validation loss is 10000 or more is never saved, even when it is
the best so far. -/
theorem checkpoint_threshold (valLosses : List ℚ) (e : ℕ)
    (he : e < valLosses.length) :
    ((saveFlags valLosses).getD e false
      = decide (valLosses.getD e 0 < bestBefore valLosses e))
    ∧ (10000 ≤ valLosses.getD e 0 → (saveFlags valLosses).getD e false = false) := by
  have h1 : (saveFlags valLosses).getD e false
      = decide (valLosses.getD e 0 < bestBefore valLosses e) :=
    loopAux_flags_getD valLosses 10000 none 0 e he
  refine ⟨h1, ?_⟩
  intro hge
  rw [h1, decide_eq_false_iff_not]
  exact not_lt.2 (le_trans (foldl_min_le_init _ _) hge)

/-- C10 witness: validation losses 5, 7, 3; by epoch 2 the best loss so far
is 5 and the loss 3 improves on it, so the save flag of epoch 2 matches the
threshold comparison. -/
theorem checkpoint_threshold_witness :
    (saveFlags [(5 : ℚ), 7, 3]).getD 2 false
      = decide ([(5 : ℚ), 7, 3].getD 2 0 < bestBefore [(5 : ℚ), 7, 3] 2) :=
  (checkpoint_threshold [(5 : ℚ), 7, 3] 2 (by decide)).1

/-- Definition following the words of claim C1: a checkpoint would be written
after epoch e exactly when the validation loss of epoch e is strictly
smaller than the validation loss of every earlier epoch. -/
def claimedSaveAt (valLosses : List ℚ) (e : ℕ) : Bool :=
  (List.range e).all fun j => decide (valLosses.getD e 0 < valLosses.getD j 0)

/-- C1 counterexample: a single epoch with validation loss 20000.  Its loss
is strictly smaller than the loss of every earlier epoch (vacuously, there
is none), so the claim as stated requires a checkpoint to be written, but the
code compares against the initial best_loss of 10000 and never saves, leaving
no checkpoint at all. -/
theorem checkpoint_iff_counterexample :
    claimedSaveAt [(20000 : ℚ)] 0 = true
    ∧ (saveFlags [(20000 : ℚ)]).getD 0 false = false
    ∧ finalCheckpoint [(20000 : ℚ)] = none := by decide

/-- C1 (amended): a checkpoint is written after an epoch exactly when its
validation loss is strictly below the running best, which starts at 10000;
consequently, whenever the persisted checkpoint exists it holds the
parameters of an epoch whose validation loss is strictly below 10000 and is
a minimum among all epochs run so far, and when the validation loss of every
epoch is at least 10000 no checkpoint is ever written. -/
theorem checkpoint_holds_min (valLosses : List ℚ) :
    (∀ e, e < valLosses.length →
      (saveFlags valLosses).getD e false
        = decide (valLosses.getD e 0 < bestBefore valLosses e))
    ∧ (∀ k, finalCheckpoint valLosses = some k →
        k < valLosses.length
        ∧ valLosses.getD k 0 < 10000
        ∧ ∀ x ∈ valLosses, valLosses.getD k 0 ≤ x)
    ∧ (finalCheckpoint valLosses = none → ∀ x ∈ valLosses, 10000 ≤ x) := by
  have H := loopAux_ckpt_spec valLosses 10000 none 0
  refine ⟨fun e he => loopAux_flags_getD valLosses 10000 none 0 e he, ?_, ?_⟩
  · intro k hk
    rcases H.1 k hk with ⟨hck, _⟩ | ⟨j, hj, hk2, hlt, hle⟩
    · exact absurd hck (by simp)
    · have hkj : k = j := by omega
      subst hkj
      exact ⟨hj, hlt, hle⟩
  · intro hk
    exact (H.2 hk).2

/-- C1 witness: validation losses 3 then 5; the checkpoint ends holding
epoch 0, whose loss is below 10000 and minimal. -/
theorem checkpoint_holds_min_witness :
    0 < ([(3 : ℚ), 5]).length ∧ [(3 : ℚ), 5].getD 0 0 < 10000 :=
  ⟨((checkpoint_holds_min [(3 : ℚ), 5]).2.1 0 (by decide)).1,
   ((checkpoint_holds_min [(3 : ℚ), 5]).2.1 0 (by decide)).2.1⟩

/-! ## Validation and training functions (notebook cells: train, val) -/

/-- Index of the first maximal entry of a list, the embedding of
tensor.argmax(dim=-1) on one row. -/
def argmaxIdx : List ℚ → ℕ
  | [] => 0
  | [_] => 0
  | x :: y :: xs =>
    if x < (y :: xs).getD (argmaxIdx (y :: xs)) 0 then argmaxIdx (y :: xs) + 1 else 0

theorem argmaxIdx_spec : ∀ l : List ℚ, l ≠ [] →
    argmaxIdx l < l.length ∧ ∀ x ∈ l, x ≤ l.getD (argmaxIdx l) 0
  | [], h => absurd rfl h
  | [x], _ => by
    constructor
    · simp [argmaxIdx]
    · intro y hy
      rw [List.mem_singleton.1 hy]
      simp [argmaxIdx]
  | x :: y :: xs, _ => by
    have IH := argmaxIdx_spec (y :: xs) (by simp)
    by_cases hx : x < (y :: xs).getD (argmaxIdx (y :: xs)) 0
    · have heq : argmaxIdx (x :: y :: xs) = argmaxIdx (y :: xs) + 1 := by
        rw [argmaxIdx]
        exact if_pos hx
      rw [heq]
      constructor
      · simp only [List.length_cons]
        have := IH.1
        simp only [List.length_cons] at this
        omega
      · intro z hz
        rcases List.mem_cons.1 hz with rfl | hz
        · simp only [List.getD_cons_succ]
          exact le_of_lt hx
        · simp only [List.getD_cons_succ]
          exact IH.2 z hz
    · have heq : argmaxIdx (x :: y :: xs) = 0 := by
        rw [argmaxIdx]
        exact if_neg hx
      rw [heq]
      constructor
      · simp
      · intro z hz
        simp only [List.getD_cons_zero]
        rcases List.mem_cons.1 hz with rfl | hz
        · exact le_refl z
        · exact le_trans (IH.2 z hz) (le_of_not_lt hx)

/-- Embedding of the notebook function number_of_correct:
pred.squeeze().eq(target).sum().item(), the number of positions where the
predicted index equals the target label. -/
def number_of_correct (pred target : List ℕ) : ℕ :=
  (pred.zip target).countP fun p => p.1 == p.2

/-- Embedding of the notebook function get_likely_index:
tensor.argmax(dim=-1), one most likely label index per batch element. -/
def get_likely_index (t : List (List ℚ)) : List ℕ :=
  t.map argmaxIdx

/-- State of the torch module: learnable parameters, batch norm running
statistics, and the training mode flag toggled by model.train() and
model.eval(). -/
structure ModelState where
  params : List ℚ
  bnStats : List ℚ
  training : Bool
deriving DecidableEq

/-- Forward pass of the module on one batch: in training mode the batch norm
layers update their running statistics from the batch (the framework
behaviour abstracted by updStats); in evaluation mode the state is untouched.
The numeric output is abstracted by outOf. -/
def modelForward (outOf : ModelState → List (List ℚ) → List (List ℚ))
    (updStats : List ℚ → List (List ℚ) → List ℚ)
    (m : ModelState) (data : List (List ℚ)) : ModelState × List (List ℚ) :=
  if m.training then ({ m with bnStats := updStats m.bnStats data }, outOf m data)
  else (m, outOf m data)

/-- One iteration of the batch loop of the notebook function val: forward
pass, loss accumulation, and correct count accumulation via get_likely_index
and number_of_correct. -/
def valStep (outOf : ModelState → List (List ℚ) → List (List ℚ))
    (updStats : List ℚ → List (List ℚ) → List ℚ)
    (criterion : List (List ℚ) → List ℕ → ℚ)
    (acc : ModelState × ℚ × ℕ) (b : List (List ℚ) × List ℕ) :
    ModelState × ℚ × ℕ :=
  ((modelForward outOf updStats acc.1 b.1).1,
   acc.2.1 + criterion (modelForward outOf updStats acc.1 b.1).2 b.2,
   acc.2.2 + number_of_correct
     (get_likely_index (modelForward outOf updStats acc.1 b.1).2) b.2)

/-- Embedding of the notebook function val: model.eval() clears the training
flag, the batch loop accumulates val_loss and correct, and the accumulated
loss divided by the number of TRAINING batches (val_loss / len(train_loader)
in the source) is appended to the loss list.  Returns the module state, the
extended loss list and the correct count. -/
def val (outOf : ModelState → List (List ℚ) → List (List ℚ))
    (updStats : List ℚ → List (List ℚ) → List ℚ)
    (criterion : List (List ℚ) → List ℕ → ℚ)
    (val_loader : List (List (List ℚ) × List ℕ))
    (nTrainBatches : ℕ) (m : ModelState) (losses : List ℚ) :
    ModelState × List ℚ × ℕ :=
  let r := val_loader.foldl (valStep outOf updStats criterion)
    ({ m with training := false }, 0, 0)
  (r.1, losses ++ [r.2.1 / (nTrainBatches : ℚ)], r.2.2)

/-- Embedding of the notebook function train: model.train() sets the training
flag, each batch runs a forward pass (updating batch norm statistics) and an
optimizer step (the gradient update abstracted by gradStep), and the
accumulated loss divided by the number of training batches is appended. -/
def train (outOf : ModelState → List (List ℚ) → List (List ℚ))
    (updStats : List ℚ → List (List ℚ) → List ℚ)
    (criterion : List (List ℚ) → List ℕ → ℚ)
    (gradStep : List ℚ → List (List ℚ) → List ℕ → List ℚ)
    (train_loader : List (List (List ℚ) × List ℕ))
    (m : ModelState) (losses : List ℚ) : ModelState × List ℚ :=
  let r := train_loader.foldl
    (fun acc b =>
      ({ (modelForward outOf updStats acc.1 b.1).1 with
          params := gradStep (modelForward outOf updStats acc.1 b.1).1.params b.1 b.2 },
       acc.2 + criterion (modelForward outOf updStats acc.1 b.1).2 b.2))
    ({ m with training := true }, 0)
  (r.1, losses ++ [r.2 / (train_loader.length : ℚ)])

theorem foldl_valStep_fst (outOf : ModelState → List (List ℚ) → List (List ℚ))
    (updStats : List ℚ → List (List ℚ) → List ℚ)
    (criterion : List (List ℚ) → List ℕ → ℚ) :
    ∀ (bs : List (List (List ℚ) × List ℕ)) (acc : ModelState × ℚ × ℕ),
      acc.1.training = false →
      (bs.foldl (valStep outOf updStats criterion) acc).1 = acc.1 := by
  intro bs
  induction bs with
  | nil => intro acc h; rfl
  | cons b bs ih =>
    intro acc h
    rw [List.foldl_cons]
    have h1 : (valStep outOf updStats criterion acc b).1 = acc.1 := by
      simp [valStep, modelForward, h]
    rw [ih (valStep outOf updStats criterion acc b) (by rw [h1]; exact h)]
    exact h1

/-- C6: running the validation function leaves every model parameter and
every batch norm running statistic exactly as before the call, for every
abstraction of the framework numerics, while the training function does
update the model (witnessed by an instantiation whose optimizer step changes
the parameters). -/
theorem val_forward_only (outOf : ModelState → List (List ℚ) → List (List ℚ))
    (updStats : List ℚ → List (List ℚ) → List ℚ)
    (criterion : List (List ℚ) → List ℕ → ℚ)
    (val_loader : List (List (List ℚ) × List ℕ))
    (nTrainBatches : ℕ) (m : ModelState) (losses : List ℚ) :
    ((val outOf updStats criterion val_loader nTrainBatches m losses).1.params
        = m.params
      ∧ (val outOf updStats criterion val_loader nTrainBatches m losses).1.bnStats
        = m.bnStats)
    ∧ ∃ (o2 : ModelState → List (List ℚ) → List (List ℚ))
        (u2 : List ℚ → List (List ℚ) → List ℚ)
        (c2 : List (List ℚ) → List ℕ → ℚ)
        (g2 : List ℚ → List (List ℚ) → List ℕ → List ℚ)
        (loader2 : List (List (List ℚ) × List ℕ))
        (m2 : ModelState) (losses2 : List ℚ),
        (train o2 u2 c2 g2 loader2 m2 losses2).1.params ≠ m2.params := by
  have h : (val_loader.foldl (valStep outOf updStats criterion)
      ({ m with training := false }, 0, 0)).1 = { m with training := false } :=
    foldl_valStep_fst outOf updStats criterion val_loader
      ({ m with training := false }, 0, 0) rfl
  refine ⟨⟨?_, ?_⟩, ?_⟩
  · show (val_loader.foldl (valStep outOf updStats criterion)
        ({ m with training := false }, 0, 0)).1.params = m.params
    rw [h]
  · show (val_loader.foldl (valStep outOf updStats criterion)
        ({ m with training := false }, 0, 0)).1.bnStats = m.bnStats
    rw [h]
  · exact ⟨fun _ _ => [], fun s _ => s, fun _ _ => 0, fun _ _ _ => [1],
      [([[]], [])], ⟨[], [], false⟩, [], by decide⟩

/-- C3: on a concrete run with two validation batches, each of per batch loss
one, and five training batches, the validation function appends
(1 + 1) / 5 = 2 / 5 to the loss list, because the source divides by
len(train_loader); the mean per validation batch loss demanded by the claim
would be (1 + 1) / 2 = 1, a different value.  The correct count does follow
the argmax equals target rule: both batch elements are counted correct. -/
theorem val_loss_normalization_bug :
    ((val (fun _ _ => [[(1 : ℚ)]]) (fun s _ => s) (fun _ _ => 1)
        [([[(0 : ℚ)]], [0]), ([[(0 : ℚ)]], [0])] 5 ⟨[], [], false⟩ []).2.1
      = [(2 : ℚ) / 5])
    ∧ ((val (fun _ _ => [[(1 : ℚ)]]) (fun s _ => s) (fun _ _ => 1)
        [([[(0 : ℚ)]], [0]), ([[(0 : ℚ)]], [0])] 5 ⟨[], [], false⟩ []).2.2 = 2)
    ∧ (2 : ℚ) / 5 ≠ (2 : ℚ) / 2 := by
  refine ⟨?_, ?_, by norm_num⟩
  · simp [val, valStep, modelForward, number_of_correct, get_likely_index,
      argmaxIdx]
    norm_num
  · simp [val, valStep, modelForward, number_of_correct, get_likely_index,
      argmaxIdx]

/-! ## M5 layer topology (notebook cell: class M5) -/

/-- Symbolic description of one computation of M5.forward. -/
inductive Layer where
  | conv1d (inChannels outChannels kernel stride : ℕ)
  | batchNorm1d (features : ℕ)
  | relu
  | maxPool1d (kernel : ℕ)
  | globalAvgPool
  | permute
  | linear (inFeatures outFeatures : ℕ)
  | logSoftmax
deriving DecidableEq

/-- Layer sequence applied by M5.forward, in execution order, as a function
of the constructor arguments n_input, n_output, stride and n_channel of
M5.__init__: conv1/bn1/relu/pool1 through conv4/bn4/relu/pool4, then the
global average pool over the time dimension, the permute that moves the
channel dimension last, the linear head fc1, and the final log softmax over
the class dimension. -/
def m5Forward (n_input n_output stride n_channel : ℕ) : List Layer :=
  [Layer.conv1d n_input n_channel 80 stride,
   Layer.batchNorm1d n_channel, Layer.relu, Layer.maxPool1d 4,
   Layer.conv1d n_channel n_channel 3 1,
   Layer.batchNorm1d n_channel, Layer.relu, Layer.maxPool1d 4,
   Layer.conv1d n_channel (2 * n_channel) 3 1,
   Layer.batchNorm1d (2 * n_channel), Layer.relu, Layer.maxPool1d 4,
   Layer.conv1d (2 * n_channel) (2 * n_channel) 3 1,
   Layer.batchNorm1d (2 * n_channel), Layer.relu, Layer.maxPool1d 4,
   Layer.globalAvgPool, Layer.permute,
   Layer.linear (2 * n_channel) n_output, Layer.logSoftmax]

/-- The model instantiated by the notebook:
M5(n_input=1, n_output=len(dataset.classes)) with the 35 classes of Speech
Commands v0.02 and the default stride 16 and n_channel 32. -/
def m5 : List Layer := m5Forward 1 35 16 32

/-- One convolution stage in the order of M5.forward: convolution, then
batch normalization, then ReLU, then max pooling with kernel 4. -/
def stageBlock (inC outC kernel stride : ℕ) : List Layer :=
  [Layer.conv1d inC outC kernel stride, Layer.batchNorm1d outC,
   Layer.relu, Layer.maxPool1d 4]

/-- Output channel count of a convolution layer. -/
def outChannelsOf : Layer → Option ℕ
  | Layer.conv1d _ o _ _ => some o
  | _ => none

/-- Channel widths of the convolution stages, in order. -/
def stageWidths (ls : List Layer) : List ℕ :=
  ls.filterMap outChannelsOf

/-- Idealised log softmax over the class dimension, the semantics of
F.log_softmax applied to one row of class scores. -/
noncomputable def logSoftmaxR {n : ℕ} (x : Fin n → ℝ) : Fin n → ℝ :=
  fun i => x i - Real.log (∑ j, Real.exp (x j))

/-- C2 counterexample: the claim as stated has the channel width strictly
increasing from each stage to the next, but the widths of the four stages
are 32, 32, 64, 64: the second stage does not widen over the first (nor the
fourth over the third). -/
theorem m5_widths_counterexample :
    stageWidths m5 = [32, 32, 64, 64]
    ∧ ¬ List.Chain' (· < ·) (stageWidths m5) := by
  constructor
  · rfl
  · have hw : stageWidths m5 = [32, 32, 64, 64] := rfl
    rw [hw]
    simp [List.chain'_cons]

/-- C2 (amended): the model consists of exactly four stages, each applying in
order a 1-D convolution, batch normalization, ReLU and max pooling, with
channel widths 32, 32, 64, 64 (never decreasing from one stage to the next
and strictly increasing from the second stage to the third), followed by a
global average pool over the time dimension, a permute of the channel
dimension, a single linear classifier layer and a log softmax over the class
dimension, so that for every input row the exponentials of the outputs over
the classes sum to one. -/
theorem m5_architecture :
    m5 = stageBlock 1 32 80 16 ++ stageBlock 32 32 3 1 ++ stageBlock 32 64 3 1
        ++ stageBlock 64 64 3 1
        ++ [Layer.globalAvgPool, Layer.permute, Layer.linear 64 35,
            Layer.logSoftmax]
    ∧ stageWidths m5 = [32, 32, 64, 64]
    ∧ List.Chain' (· ≤ ·) (stageWidths m5)
    ∧ (stageWidths m5).getD 1 0 < (stageWidths m5).getD 2 0
    ∧ ∀ x : Fin 35 → ℝ, ∑ i, Real.exp (logSoftmaxR x i) = 1 := by
  have hw : stageWidths m5 = [32, 32, 64, 64] := rfl
  refine ⟨rfl, rfl, ?_, by decide, ?_⟩
  · rw [hw]
    simp [List.chain'_cons]
  intro x
  have hpos : 0 < ∑ j, Real.exp (x j) :=
    Finset.sum_pos (fun j _ => Real.exp_pos _) Finset.univ_nonempty
  simp only [logSoftmaxR, Real.exp_sub, Real.exp_log hpos]
  rw [← Finset.sum_div]
  exact div_self (ne_of_gt hpos)

/-! ## Train and validation split and loaders (notebook split cell) -/

/-- Number of validation samples chosen by sklearn train_test_split for
test_size = 0.3 on n samples: the ceiling of three tenths of n. -/
def n_test (n : ℕ) : ℕ := (3 * n + 9) / 10

/-- Embedding of sklearn train_test_split with shuffling: the seeded
permutation generator (the numpy RandomState permutation, abstract here) is
keyed by random_state when one is given and by ambient entropy otherwise;
the test subset is the image of the first n_test permuted positions, the
train subset of the remaining ones, returned in the order (train, test). -/
def train_test_split (permGen : ℕ → ℕ → List ℕ) (entropy : ℕ)
    (randomState : Option ℕ) (idx : List ℕ) : List ℕ × List ℕ :=
  ((permGen (randomState.getD entropy) idx.length).map
      (fun j => idx.getD j 0) |>.drop (n_test idx.length),
   (permGen (randomState.getD entropy) idx.length).map
      (fun j => idx.getD j 0) |>.take (n_test idx.length))

/-- The split performed by the notebook:
train_test_split(idx, test_size=0.3, random_state=42) on
idx = list(range(dataset_size)).  First component train_indices, second
val_indices. -/
def notebookSplit (permGen : ℕ → ℕ → List ℕ) (entropy n : ℕ) :
    List ℕ × List ℕ :=
  train_test_split permGen entropy (some 42) (List.range n)

/-- Batch size hyperparameter of the notebook. -/
def batch_size : ℕ := 256

/-- Batches emitted by a DataLoader that does not shuffle: consecutive
chunks of batch_size elements of the underlying subset, in subset order. -/
def chunksOf {α : Type} (k : ℕ) : List α → List (List α)
  | [] => []
  | x :: xs => (x :: xs.take (k - 1)) :: chunksOf k (xs.drop (k - 1))
termination_by l => l.length
decreasing_by simp only [List.length_drop, List.length_cons]; omega

/-- Batches of val_loader (DataLoader(val_dataset, batch_size=batch_size,
shuffle=False)): the validation indices in their fixed subset order, cut
into chunks of batch_size.  Only train_loader is built with shuffle=True. -/
def val_loader_batches (permGen : ℕ → ℕ → List ℕ) (entropy n : ℕ) :
    List (List ℕ) :=
  chunksOf batch_size (notebookSplit permGen entropy n).2

theorem chunksOf_flatten {α : Type} (k : ℕ) :
    ∀ l : List α, (chunksOf k l).flatten = l
  | [] => by rw [chunksOf]; rfl
  | x :: xs => by
    rw [chunksOf]
    simp only [List.flatten_cons]
    rw [chunksOf_flatten k (xs.drop (k - 1))]
    simp [List.take_append_drop]
termination_by l => l.length
decreasing_by simp only [List.length_drop, List.length_cons]; omega

theorem range_getD_map (n : ℕ) :
    (List.range n).map (fun j => (List.range n).getD j 0) = List.range n := by
  have h : ∀ a ∈ List.range n, (List.range n).getD a 0 = a := by
    intro a ha
    rw [List.getD_eq_getElem _ _ (by simpa using List.mem_range.1 ha)]
    simp
  rw [List.map_congr_left h]
  simp

/-- C5: for every permutation generator whose output is a permutation of the
positions (the behaviour of the seeded numpy permutation), the notebook
split of the index list range n is a partition: validation indices followed
by train indices are a permutation of range n (so the two subsets are
disjoint and together cover every index), the validation subset holds
n_test n = ceiling of three tenths of n indices, the split does not depend
on ambient entropy because random_state is fixed at 42 (two runs are
identical), the validation loader batches are likewise identical on every
pass, and their concatenation is exactly the validation index sequence in
its fixed order. -/
theorem split_deterministic_partition (permGen : ℕ → ℕ → List ℕ)
    (entropy n : ℕ)
    (hperm : ∀ s m, (permGen s m).Perm (List.range m)) :
    ((notebookSplit permGen entropy n).2
        ++ (notebookSplit permGen entropy n).1).Perm (List.range n)
    ∧ (notebookSplit permGen entropy n).2.length = n_test n
    ∧ (∀ e1 e2 : ℕ, notebookSplit permGen e1 n = notebookSplit permGen e2 n)
    ∧ (∀ e1 e2 : ℕ,
        val_loader_batches permGen e1 n = val_loader_batches permGen e2 n)
    ∧ (val_loader_batches permGen entropy n).flatten
        = (notebookSplit permGen entropy n).2 := by
  have hshuf : ((permGen 42 (List.range n).length).map
      (fun j => (List.range n).getD j 0)).Perm (List.range n) := by
    have hp := hperm 42 (List.range n).length
    have hr : List.range (List.range n).length = List.range n := by simp
    rw [hr] at hp
    exact (hp.map _).trans (by rw [range_getD_map])
  have hlen : ((permGen 42 (List.range n).length).map
      (fun j => (List.range n).getD j 0)).length = n := by
    rw [List.length_map, (hperm 42 (List.range n).length).length_eq]
    simp
  refine ⟨?_, ?_, fun e1 e2 => rfl, fun e1 e2 => rfl, chunksOf_flatten _ _⟩
  · show ((((permGen 42 (List.range n).length).map
        (fun j => (List.range n).getD j 0)).take (n_test (List.range n).length))
      ++ (((permGen 42 (List.range n).length).map
        (fun j => (List.range n).getD j 0)).drop (n_test (List.range n).length))).Perm
      (List.range n)
    rw [List.take_append_drop]
    exact hshuf
  · show (((permGen 42 (List.range n).length).map
        (fun j => (List.range n).getD j 0)).take (n_test (List.range n).length)).length
      = n_test n
    rw [List.length_take, hlen]
    simp only [List.length_range]
    have : n_test n ≤ n := by
      unfold n_test
      omega
    omega

/-- Identity permutation generator, a permutation of the positions used to
witness the split theorem on a concrete size. -/
def idPermGen : ℕ → ℕ → List ℕ := fun _ m => List.range m

/-- C5 witness: splitting seven indices with the identity permutation
generator gives a partition whose validation part has
n_test 7 = 3 elements. -/
theorem split_deterministic_partition_witness :
    ((notebookSplit idPermGen 0 7).2
        ++ (notebookSplit idPermGen 0 7).1).Perm (List.range 7)
    ∧ (notebookSplit idPermGen 0 7).2.length = n_test 7 :=
  ⟨(split_deterministic_partition idPermGen 0 7
      (fun _ _ => List.Perm.refl _)).1,
   (split_deterministic_partition idPermGen 0 7
      (fun _ _ => List.Perm.refl _)).2.1⟩

/-! ## Single sample inference (notebook inference cells) -/

/-- Embedding of the guarded inference preparation cell: when the audio file
does not exist an error message is reported and nothing else happens; when it
does, the file is loaded and if its duration in seconds, the sample count
divided by the sample rate, is below min_duration = 1.0 an error message is
reported; only otherwise is the waveform resampled from its original rate to
new_sample_rate (the resampling kernel of torchaudio abstracted by
resample). -/
def inferencePrep (fileExists : Bool) (waveform : List ℚ) (sampleRate : ℕ)
    (resample : ℕ → ℕ → List ℚ → List ℚ) : Except String (List ℚ) :=
  if fileExists = false then Except.error "Error: Audio file does not exist."
  else if ((waveform.length : ℚ) / (sampleRate : ℚ)) < 1 then
    Except.error "Error: Audio duration is too short."
  else Except.ok (resample sampleRate new_sample_rate waveform)

/-- Embedding of the inference cell: one forward pass of the loaded model on
the prepared input (the checkpointed network abstracted by model) and argmax
decoding of the output row into dataset.classes[pred.item()]; an out of
range class index is given the empty label here where python would raise. -/
def inferenceDecode (model : List ℚ → List ℚ) (classes : List String)
    (input : List ℚ) : String :=
  classes.getD (argmaxIdx (model input)) ""

/-- The two inference cells chained: preparation guards, then decoding on
success. -/
def inferencePipeline (fileExists : Bool) (waveform : List ℚ)
    (sampleRate : ℕ) (resample : ℕ → ℕ → List ℚ → List ℚ)
    (model : List ℚ → List ℚ) (classes : List String) :
    Except String String :=
  (inferencePrep fileExists waveform sampleRate resample).map
    (inferenceDecode model classes)

/-- C7: when the inference path accepts a clip, the result is obtained by
resampling the clip from its rate to new_sample_rate = 8000, one forward
pass of the loaded model, and picking dataset.classes at the argmax of the
output; the argmax really is an index of a maximal output entry. -/
theorem inference_decoding (fileExists : Bool) (waveform : List ℚ)
    (sampleRate : ℕ) (resample : ℕ → ℕ → List ℚ → List ℚ)
    (model : List ℚ → List ℚ) (classes : List String)
    (hfe : fileExists = true)
    (hd : ¬ ((waveform.length : ℚ) / (sampleRate : ℚ) < 1)) :
    inferencePipeline fileExists waveform sampleRate resample model classes
      = Except.ok (classes.getD
          (argmaxIdx (model (resample sampleRate new_sample_rate waveform))) "")
    ∧ new_sample_rate = 8000
    ∧ (∀ out : List ℚ, out ≠ [] →
        ∀ y ∈ out, y ≤ out.getD (argmaxIdx out) 0) := by
  refine ⟨?_, rfl, fun out hout y hy => (argmaxIdx_spec out hout).2 y hy⟩
  subst hfe
  simp [inferencePipeline, inferencePrep, inferenceDecode, hd, Except.map]

/-- Identity resampling function, used to instantiate the inference theorems
on concrete inputs. -/
def idResample : ℕ → ℕ → List ℚ → List ℚ := fun _ _ w => w

/-- Identity network function, used to instantiate the inference theorems on
concrete inputs. -/
def idModel : List ℚ → List ℚ := id

/-- C7 witness: an existing one sample clip at one hertz (duration one
second) decoded through the identity resampler and identity model. -/
theorem inference_decoding_witness :
    inferencePipeline true [(5 : ℚ)] 1 idResample idModel ["yes", "no"]
      = Except.ok (["yes", "no"].getD
          (argmaxIdx (idModel (idResample 1 new_sample_rate [(5 : ℚ)]))) "") :=
  (inference_decoding true [(5 : ℚ)] 1 idResample idModel ["yes", "no"]
    rfl (by simp)).1

/-- C9: the inference path reports the file error and stops when the audio
file does not exist, reports the duration error and stops when the clip is
shorter than one second, and in either failing case the outcome does not
depend on the resampling function or on the model at all, so no resampling
and no model evaluation takes place. -/
theorem inference_guards (fileExists : Bool) (waveform : List ℚ)
    (sampleRate : ℕ) (resample : ℕ → ℕ → List ℚ → List ℚ)
    (model : List ℚ → List ℚ) (classes : List String) :
    (fileExists = false →
      inferencePipeline fileExists waveform sampleRate resample model classes
        = Except.error "Error: Audio file does not exist.")
    ∧ (fileExists = true →
        (waveform.length : ℚ) / (sampleRate : ℚ) < 1 →
        inferencePipeline fileExists waveform sampleRate resample model classes
          = Except.error "Error: Audio duration is too short.")
    ∧ (∀ (r2 : ℕ → ℕ → List ℚ → List ℚ) (m2 : List ℚ → List ℚ),
        (fileExists = false ∨ (waveform.length : ℚ) / (sampleRate : ℚ) < 1) →
        inferencePipeline fileExists waveform sampleRate resample model classes
          = inferencePipeline fileExists waveform sampleRate r2 m2 classes) := by
  refine ⟨?_, ?_, ?_⟩
  · intro h
    subst h
    rfl
  · intro h1 h2
    subst h1
    simp [inferencePipeline, inferencePrep, h2, Except.map]
  · intro r2 m2 h
    rcases h with h | h
    · subst h
      rfl
    · by_cases hfe : fileExists = false
      · subst hfe
        rfl
      · have hft : fileExists = true := by
          cases fileExists
          · exact absurd rfl hfe
          · rfl
        subst hft
        simp [inferencePipeline, inferencePrep, h, Except.map]

/-- C9 witness: a missing file is rejected with the file error, and an
existing empty clip at one hertz is rejected with the duration error. -/
theorem inference_guards_witness :
    (inferencePipeline false [] 0 idResample idModel []
        = Except.error "Error: Audio file does not exist.")
    ∧ (inferencePipeline true [] 1 idResample idModel []
        = Except.error "Error: Audio duration is too short.") :=
  ⟨(inference_guards false [] 0 idResample idModel []).1 rfl,
   (inference_guards true [] 1 idResample idModel []).2.1 rfl (by simp)⟩
